import Mathlib

/-!
Verification of the register-pool allocator, instruction selection, magic
division, split-K rebalancing and store-epilogue sequences of the Tensile
assembly kernel writer (`src/Tensile/KernelWriterAssembly.py`).

Python loops over mutable lists are embedded as recursive functions on
`List`; machine 32-bit and 64-bit register arithmetic is embedded on `Nat`
with explicit `% 2 ^ 32` / `% 2 ^ 64` at the points where the hardware
truncates; Python exceptions (`raise`, failing `assert`, `IndexError`)
are embedded as `Except.error`.  `printWarning` is a pure logging side
channel and does not alter control flow or state, so it is not modelled.
-/

namespace Tensile

/-- Slot status, from `RegisterPool.Status`. -/
inductive Status where
  | Unavailable : Status
  | Available : Status
  | InUse : Status
deriving DecidableEq

/-- One simulated register, from `RegisterPool.Register` (`status`, `tag`). -/
structure Register where
  status : Status
  tag : String
deriving DecidableEq

/-- The pool: the slot list plus the checkout-start-to-size map
(`self.pool`, `self.checkOutSize`).  The Python dict is embedded as an
association list: assignment prepends, deletion filters, lookup takes the
first hit, which agrees with dict overwrite semantics. -/
structure RegisterPool where
  pool : List Register
  checkOutSize : List (Nat × Nat)
deriving DecidableEq

/-- Loop body of `RegisterPool.checkFinalState` (lines 345-352): scan the
slots in index order and raise on the first slot still `InUse`, reporting
its index and tag. -/
def checkFinalStateAux : List Register → Nat → Except (Nat × String) Unit
  | [], _ => Except.ok ()
  | r :: rest, i =>
      if r.status = Status.InUse then Except.error (i, r.tag)
      else checkFinalStateAux rest (i + 1)

/-- `RegisterPool.checkFinalState`: the end-of-generation leak detector. -/
def checkFinalState (p : RegisterPool) : Except (Nat × String) Unit :=
  checkFinalStateAux p.pool 0

/-- Loop body of `RegisterPool.remove` (lines 178-186): for each index of
the target range, an `Available` slot becomes `Unavailable` (tag kept, the
source only assigns `.status`); `Unavailable` and `InUse` slots are left
as they are (with a warning).  Indexing `self.pool[i]` past the end raises
`IndexError`. -/
def removeAux (pool : List Register) (i : Nat) : Nat → Except String (List Register)
  | 0 => Except.ok pool
  | fuel + 1 =>
      match pool[i]? with
      | none => Except.error "IndexError: list index out of range"
      | some r =>
          removeAux
            (pool.set i (if r.status = Status.Available then ⟨Status.Unavailable, r.tag⟩ else r))
            (i + 1) fuel

/-- `RegisterPool.remove(start, size)` (lines 169-186).  The past-the-end
warning at line 176 is a log message only; the subsequent loop still
indexes the list. -/
def remove (p : RegisterPool) (start size : Nat) : Except String RegisterPool :=
  (removeAux p.pool start size).map (fun l => ⟨l, p.checkOutSize⟩)

/-- Loop body of the found branch of `RegisterPool.checkIn` (lines
288-289): mark `[start, start+size)` `Available` (only `.status` is
assigned; tags are kept). -/
def checkInAux (pool : List Register) (i : Nat) : Nat → Except String (List Register)
  | 0 => Except.ok pool
  | fuel + 1 =>
      match pool[i]? with
      | none => Except.error "IndexError: list index out of range"
      | some r => checkInAux (pool.set i ⟨Status.Available, r.tag⟩) (i + 1) fuel

/-- `RegisterPool.checkIn(start)` (lines 285-298).  When `start` has a
recorded size the range is marked `Available` and the record is dropped;
otherwise the function only formats a warning from `self.pool[start].tag`
(raising `IndexError` when `start` is past the end) and changes nothing. -/
def checkIn (p : RegisterPool) (start : Nat) : Except String RegisterPool :=
  match p.checkOutSize.lookup start with
  | some size =>
      (checkInAux p.pool start size).map
        (fun l => ⟨l, p.checkOutSize.filter (fun e => decide (e.1 ≠ start))⟩)
  | none =>
      match p.pool[start]? with
      | some _ => Except.ok p
      | none => Except.error "IndexError: list index out of range"

/-- Apply `f`, which also receives the absolute index, to every element of
the list, starting the index count at `n`.  Used to embed the
`for i in range(..., len(self.pool))` field-assignment loops of
`checkOutAligned`. -/
def mapIdxFrom (f : Nat → Register → Register) : List Register → Nat → List Register
  | [], _ => []
  | r :: rest, n => f n r :: mapIdxFrom f rest (n + 1)

/-- Modelled from the spec: `roundUpToNearestMultiple` is imported from
`Tensile/Utils.py`, which is not under `src/`; per the spec the overflow
append point is "rounded up to satisfy `alignment`". -/
def roundUpToNearestMultiple (num denom : Nat) : Nat := (num + denom - 1) / denom * denom

/-- Inner all-available test of the `checkOutAligned` scan (lines 205-216):
slots `[i, i+size)` are all `Available`.  (The assignment `i = j+1` at
line 210 rebinds the loop variable of a Python `for` loop and has no
effect on the iteration.) -/
def allAvailable (pool : List Register) (i size : Nat) : Bool :=
  (List.range size).all fun j =>
    match pool[i + j]? with
    | some r => r.status = Status.Available
    | none => false

/-- One candidate index of the `checkOutAligned` scan (lines 198-216):
aligned, in bounds, and fully available. -/
def scanOk (pool : List Register) (size alignment i : Nat) : Bool :=
  (i % alignment == 0) && decide (i + size ≤ pool.length) && allAvailable pool i size

/-- The low-to-high scan of `checkOutAligned` (lines 197-216): the first
qualifying index, if any. -/
def scanFound (pool : List Register) (size alignment : Nat) : Option Nat :=
  (List.range pool.length).find? (scanOk pool size alignment)

/-- Length of the trailing contiguous `Available` run
(`RegisterPool.availableBlockAtEnd`, lines 333-341). -/
def availableBlockAtEnd (pool : List Register) : Nat :=
  (pool.reverse.takeWhile (fun r => r.status == Status.Available)).length

/-- Start of the trailing `Available` run as found by the overflow path of
`checkOutAligned` (lines 234-241): the backward loop `range(len-1, 0, -1)`
stops before index 0, so for a nonempty pool the scan start never goes
below 1, even when slot 0 itself is `Available`; when the trailing slot is
not `Available` the start stays at the pool length. -/
def overflowStart (pool : List Register) : Nat :=
  pool.length - min (availableBlockAtEnd pool) (pool.length - 1)

/-- Start index returned by the overflow path: the backward-scan start
rounded up to the alignment (line 245). -/
def overflowAllocStart (p : RegisterPool) (alignment : Nat) : Nat :=
  roundUpToNearestMultiple (overflowStart p.pool) alignment

/-- `RegisterPool.checkOutAligned(size, alignment, tag, preventOverflow)`
(lines 193-265).  Failing `assert` statements become `Except.error`.  The
Python expression `i % alignment` raises `ZeroDivisionError` when
`alignment = 0`, so the embedding is meaningful only for `alignment ≥ 1`
(as at every call site in the source); on success the scan path marks the
found run `InUse` and records its size, the overflow path re-tags the
trailing run it scanned, marks everything from the rounded start `InUse`,
appends `Available` alignment-padding slots and `InUse` slots, and records
the rounded start. -/
def checkOutAligned (p : RegisterPool) (size alignment : Nat) (tag : String)
    (preventOverflow : Bool) : Except String (Nat × RegisterPool) :=
  if size = 0 then Except.error "AssertionError: size > 0"
  else
    match scanFound p.pool size alignment with
    | some found =>
        let pool1 := mapIdxFrom
          (fun i r => if found ≤ i ∧ i < found + size then ⟨Status.InUse, tag⟩ else r) p.pool 0
        Except.ok (found, ⟨pool1, (found, size) :: p.checkOutSize⟩)
    | none =>
        if preventOverflow then Except.error "AssertionError: not preventOverflow"
        else
          let oldSize := p.pool.length
          let scanStart := overflowStart p.pool
          let pool1 := mapIdxFrom
            (fun i r => if scanStart ≤ i then ⟨r.status, tag⟩ else r) p.pool 0
          let start := roundUpToNearestMultiple scanStart alignment
          let pool2 := mapIdxFrom
            (fun i r => if start ≤ i then ⟨Status.InUse, tag⟩ else r) pool1 0
          let overflow := start + size - oldSize
          let appended := (List.range overflow).map fun k =>
            if oldSize + k < start then (⟨Status.Available, tag⟩ : Register)
            else ⟨Status.InUse, tag⟩
          Except.ok (start, ⟨pool2 ++ appended, (start, size) :: p.checkOutSize⟩)

/-- Immutable catalog entry, from class `MemoryInstruction` (lines 38-98):
the fields used by instruction selection.  `blockWidth` may be fractional
(0.25 of a register for byte accesses), so it is a rational. -/
structure MemoryInstruction where
  name : String
  numAddresses : Nat
  numOffsets : Nat
  offsetMultiplier : Nat
  blockWidth : Rat
deriving DecidableEq

/-- Validity test applied to one catalog entry by
`findMemoryInstructionForWidthStride` (lines 804-824): an entry is ruled
out when it is wider than the requested width; when combining, a
multi-offset entry is ruled out unless every stride is divisible by its
offset granularity; when not combining, multi-offset and multi-address
entries are ruled out. -/
def instValidForWidthStride (width : Rat) (strides : List Int) (combine : Bool)
    (instruction : MemoryInstruction) : Bool :=
  let valid := true
  let valid := if width < instruction.blockWidth then false else valid
  let valid :=
    if combine then
      if instruction.numOffsets > 0 then
        if strides.any (fun s => !(s % (instruction.offsetMultiplier : Int) == 0)) then false
        else valid
      else valid
    else
      if instruction.numOffsets > 1 ∨ instruction.numAddresses > 1 then false else valid
  valid

/-- The scan of `findMemoryInstructionForWidthStride` (lines 802-827): the
index of the first valid entry in catalog order, or the catalog length
when none is valid (the sentinel the caller compares against). -/
def findMemoryInstructionForWidthStride (width : Rat) (strides : List Int) (combine : Bool)
    : List MemoryInstruction → Nat
  | [] => 0
  | instruction :: rest =>
      if instValidForWidthStride width strides combine instruction then 0
      else findMemoryInstructionForWidthStride width strides combine rest + 1

/-- `selectMemoryInstruction` (lines 834-857).  The Python function
resolves `operation` in `self.memoryInstructions`; the embedding receives
the resolved catalog list directly.  Combining is requested for
`write2 == Coalesced` with `para2` or `write2 == Perpendicular` with
`perp2`; a sentinel result from the scan raises the documented fatal
error. -/
def selectMemoryInstruction (instructions : List MemoryInstruction) (width : Rat)
    (write2 : String) (para2 perp2 : Bool) (strides : List Int) : Except String Nat :=
  let combine := (write2 == "Coalesced" && para2) || (write2 == "Perpendicular" && perp2)
  let instructionIdx := findMemoryInstructionForWidthStride width strides combine instructions
  if instructionIdx < instructions.length then Except.ok instructionIdx
  else Except.error "Could not find valid memory instruction"

/-- The three addressing-optimization flags chosen once per batch by
`StoreState.__init__` (0/1 integers in the source). -/
structure StoreOpts where
  optSingleColVgpr : Nat
  optSharedColVgpr : Nat
  optSrdIncForRow : Nat
deriving DecidableEq

/-- Flag selection of `StoreState.__init__` (lines 9349-9387), a straight
translation of the assignment sequence: all three flags start at 0; the
column-sharing modes are only ever set under `BufferStore and not edge and
not atomic`, depending on the packed index-list lengths; a nonzero
`StoreRemapVectorWidth` forces `optSrdIncForRow`; `UseInitialStridesCD`
clears both column modes. -/
def storeStateInitOpts (bufferStore edge atomic : Bool)
    (packedC0Len packedC1Len storeRemapVectorWidth : Nat)
    (useInitialStridesCD : Bool) : StoreOpts :=
  let s0 : StoreOpts := ⟨0, 0, 0⟩
  let s1 :=
    if bufferStore && !edge && !atomic then
      let sa :=
        if packedC0Len > 1 then ⟨s0.optSingleColVgpr, 1, s0.optSrdIncForRow⟩
        else if packedC1Len > 1 then (⟨0, 0, s0.optSrdIncForRow⟩ : StoreOpts)
        else ⟨1, s0.optSharedColVgpr, s0.optSrdIncForRow⟩
      if !atomic && (packedC1Len == 1) then ⟨sa.optSingleColVgpr, sa.optSharedColVgpr, 1⟩
      else sa
    else s0
  let s2 :=
    if storeRemapVectorWidth ≠ 0 then ⟨s1.optSingleColVgpr, s1.optSharedColVgpr, 1⟩ else s1
  if useInitialStridesCD then ⟨0, 0, s2.optSrdIncForRow⟩ else s2

/-- Destination data types distinguished by the pack block of
`globalWriteBatch` (lines 11485-11504). -/
inductive DestDataType where
  | Half : DestDataType
  | BFloat16 : DestDataType
  | Single : DestDataType
  | Int32 : DestDataType
  | Double : DestDataType
  | SingleComplex : DestDataType
  | DoubleComplex : DestDataType
deriving DecidableEq

/-- Opcode sequence emitted for one vector component `vi` by the pack
block of `globalWriteBatch` (lines 11485-11504), active when
`HighPrecisionAccumulate` is set and `_GlobalAccumulation` is not
`MultipleBuffer`: half narrows with a convert (packing odd components);
bfloat16 narrows with a self-compare NaN check, a low-bit extract, a
rounding-increment add and a conditional select, then a truncating 16-bit
shift (even components) or a pack with the neighbor (odd components). -/
def packComponentOps (destType : DestDataType) (hpa : Bool) (globalAccum : String)
    (vi : Nat) : List String :=
  if hpa = true ∧ globalAccum ≠ "MultipleBuffer" then
    match destType with
    | DestDataType.Half =>
        "v_cvt_f16_f32" :: (if vi % 2 = 1 then ["v_pack_b32_f16"] else [])
    | DestDataType.BFloat16 =>
        ["v_cmp_u_f32", "v_bfe_u32", "v_add3_u32", "v_cndmask_b32"]
          ++ (if vi % 2 = 0 then ["v_lshrrev_b32"] else ["v_and_or_b32"])
    | _ => []
  else []

/-- The bfloat16-narrowing sequence for one vector component in the
high-precision-accumulate store epilogue. -/
def bf16NarrowOps (globalAccum : String) (vi : Nat) : List String :=
  packComponentOps DestDataType.BFloat16 true globalAccum vi

/-- `s_mul_hi_u32`: the high 32 bits of the product of two 32-bit register
values. -/
def s_mul_hi_u32 (a b : Nat) : Nat := a % 2 ^ 32 * (b % 2 ^ 32) / 2 ^ 32

/-- `s_mul_i32`: the low 32 bits of the product. -/
def s_mul_i32 (a b : Nat) : Nat := a * b % 2 ^ 32

/-- `s_add_u32`: 32-bit wrapping addition. -/
def s_add_u32 (a b : Nat) : Nat := (a + b) % 2 ^ 32

/-- `s_lshr_b32`: 32-bit logical shift right; the hardware uses the low 5
bits of the shift operand. -/
def s_lshr_b32 (a s : Nat) : Nat := a % 2 ^ 32 / 2 ^ (s % 32)

/-- `s_and_b32`: 32-bit bitwise and. -/
def s_and_b32 (a b : Nat) : Nat := (a &&& b) % 2 ^ 32

/-- `s_lshr_b64`: 64-bit logical shift right on a register pair; the
hardware uses the low 6 bits of the shift operand. -/
def s_lshr_b64 (a s : Nat) : Nat := a % 2 ^ 64 / 2 ^ (s % 64)

/-- Arithmetic of the instruction sequence emitted by `sMagicDivAlg2`
(lines 3498-3512): multiply-high, extract the abit (bit 31 of the
shift-and-abit word), multiply the dividend by the abit, 32-bit add, mask
the final shift out of the low 31 bits of the shift-and-abit word, shift
right. -/
def sMagicDivAlg2 (dividend magicNumber magicShiftAbit : Nat) : Nat :=
  let dest1 := s_mul_hi_u32 dividend magicNumber
  let tmpS := s_lshr_b32 magicShiftAbit 31
  let dest := s_mul_i32 dividend tmpS
  let dest2 := s_add_u32 dest dest1
  let tmpS2 := s_and_b32 magicShiftAbit 0x7fffffff
  s_lshr_b32 dest2 tmpS2

/-- Arithmetic of the sequence emitted by `sMagicDiv` (lines 3487-3491):
`s_mul_u64_u32` (lines 11967-11989) leaves the exact 64-bit product of two
32-bit values in a register pair, `s_lshr_b64` shifts it, and the quotient
is read from the low word of the destination pair. -/
def sMagicDiv (dividend magicNumber magicShift : Nat) : Nat :=
  let product := dividend % 2 ^ 32 * (magicNumber % 2 ^ 32)
  s_lshr_b64 product magicShift % 2 ^ 32

/-- Modelled from the spec: the host side precomputes a per-divisor
{multiplier, shift, abit} triple ("precomputed per-dimension {multiplier,
shift, round-up-correction bit} triplets (computed host-side and passed
in)"); that generation code is not under `src/`.  For the 32-bit corrected
variant, a triple is valid for divisor `n` when the multiplier fits in 32
bits, the shift is encodable, the abit is one bit, and the effective
33-bit multiplier `abit * 2^32 + m` satisfies the standard
reciprocal-division precision bounds for the shift `32 + shift`. -/
def validMagicTripleAlg2 (n m shift abit : Nat) : Prop :=
  0 < n ∧ m < 2 ^ 32 ∧ shift < 32 ∧ abit ≤ 1
    ∧ 2 ^ (32 + shift) ≤ (abit * 2 ^ 32 + m) * n
    ∧ (abit * 2 ^ 32 + m) * n ≤ 2 ^ (32 + shift) + 2 ^ shift

/-- Modelled from the spec: validity of a {multiplier, shift} pair for the
64-bit-product variant — the multiplier fits in 32 bits and satisfies the
reciprocal precision bounds that make the shifted 64-bit product exact for
every 32-bit dividend. -/
def validMagicTripleAlg1 (n m shift : Nat) : Prop :=
  0 < n ∧ m < 2 ^ 32 ∧ shift < 64
    ∧ 2 ^ shift * 2 ^ 32 ≤ m * n * 2 ^ 32
    ∧ m * n * 2 ^ 32 ≤ 2 ^ shift * 2 ^ 32 + 2 ^ shift

instance (n m shift abit : Nat) : Decidable (validMagicTripleAlg2 n m shift abit) := by
  unfold validMagicTripleAlg2
  infer_instance

instance (n m shift : Nat) : Decidable (validMagicTripleAlg1 n m shift) := by
  unfold validMagicTripleAlg1
  infer_instance

/-- Modelled from the spec: `scalarStaticDivideAndRemainder` (imported
from `Tensile/AsmUtils.py`, not under `src/`) emits code leaving the
quotient and the remainder of the dividend by the static divisor in the
destination registers ("quotient/remainder of total-trip-count over
partition-count"). -/
def scalarStaticDivideAndRemainder (dividend divisor : Nat) : Nat × Nat :=
  (dividend / divisor, dividend % divisor)

/-- Per-partition trip count computed by the code emitted by
`calculateLoopNumIterGsu` (lines 5461-5479): quotient of the loop counter
by `GlobalSplitU` back into the counter, remainder into `GSUSumIdx+1`, an
`s_add_u32` of 1, then `s_cmov_b32` selecting the incremented count when
`gsuSumIdx < remainder`. -/
def calculateLoopNumIterGsu (totalIter gsu gsuSumIdx : Nat) : Nat :=
  let qr := scalarStaticDivideAndRemainder totalIter gsu
  let incremented := s_add_u32 1 qr.1
  if gsuSumIdx < qr.2 then incremented else qr.1

end Tensile

namespace Tensile

/- ### Claim C1: checkFinalState -/

theorem checkFinalStateAux_ok (l : List Register) (k : Nat)
    (h : ∀ r ∈ l, r.status ≠ Status.InUse) : checkFinalStateAux l k = Except.ok () := by
  induction l generalizing k with
  | nil => rfl
  | cons r rest ih =>
      have hr : r.status ≠ Status.InUse := h r (List.mem_cons_self r rest)
      simp only [checkFinalStateAux, if_neg hr]
      exact ih (k + 1) (fun s hs => h s (List.mem_cons_of_mem r hs))

theorem checkFinalStateAux_err (l : List Register) :
    ∀ (k i : Nat) (r : Register), l[i]? = some r → r.status = Status.InUse →
      (∀ j s, j < i → l[j]? = some s → s.status ≠ Status.InUse) →
      checkFinalStateAux l k = Except.error (k + i, r.tag) := by
  induction l with
  | nil => intro k i r hget; simp at hget
  | cons x rest ih =>
      intro k i r hget hInUse hleast
      cases i with
      | zero =>
          simp only [List.getElem?_cons_zero, Option.some.injEq] at hget
          subst hget
          simp [checkFinalStateAux, hInUse]
      | succ i' =>
          have hx : x.status ≠ Status.InUse := by
            exact hleast 0 x (Nat.succ_pos i') List.getElem?_cons_zero
          simp only [checkFinalStateAux, if_neg hx]
          rw [List.getElem?_cons_succ] at hget
          have := ih (k + 1) i' r hget hInUse
            (fun j s hj hs =>
              hleast (j + 1) s (Nat.succ_lt_succ hj)
                (by rw [List.getElem?_cons_succ]; exact hs))
          rw [this]
          have harith : k + 1 + i' = k + (i' + 1) := by omega
          rw [harith]

/-- Claim C1 (amended): if some slot is still `InUse` when
`checkFinalState` runs, the call fails fatally and the failure report
names the lowest-indexed still-`InUse` slot together with its tag (not
every such slot); if no slot is `InUse` the call completes without
raising. -/
theorem checkFinalState_leak_detector (p : RegisterPool) :
    ((∀ r ∈ p.pool, r.status ≠ Status.InUse) → checkFinalState p = Except.ok ())
    ∧ (∀ i r, p.pool[i]? = some r → r.status = Status.InUse →
        (∀ j s, j < i → p.pool[j]? = some s → s.status ≠ Status.InUse) →
        checkFinalState p = Except.error (i, r.tag)) := by
  constructor
  · intro h
    exact checkFinalStateAux_ok p.pool 0 h
  · intro i r hget hInUse hleast
    have := checkFinalStateAux_err p.pool 0 i r hget hInUse hleast
    simpa using this

/-- Witness for `checkFinalState_leak_detector` at concrete pools: a pool
with no `InUse` slot completes, and in a pool whose slots 0 and 1 are both
`InUse` the report names slot 0 with its tag. -/
theorem checkFinalState_leak_detector_witness :
    checkFinalState ⟨[⟨Status.Available, "a"⟩, ⟨Status.Unavailable, "b"⟩], []⟩ = Except.ok ()
    ∧ checkFinalState ⟨[⟨Status.InUse, "tagA"⟩, ⟨Status.InUse, "tagB"⟩], []⟩
        = Except.error (0, "tagA") :=
  ⟨(checkFinalState_leak_detector ⟨[⟨Status.Available, "a"⟩, ⟨Status.Unavailable, "b"⟩], []⟩).1
      (by decide),
   (checkFinalState_leak_detector ⟨[⟨Status.InUse, "tagA"⟩, ⟨Status.InUse, "tagB"⟩], []⟩).2
      0 ⟨Status.InUse, "tagA"⟩ rfl rfl (fun j s hj _ => absurd hj (Nat.not_lt_zero j))⟩

/-- Counterexample to claim C1 as stated: in a pool whose slots 0 and 1
are both `InUse` (tags `tagA`, `tagB`), the failure report does NOT name
every still-`InUse` slot with its tag — it names only slot 0. -/
theorem checkFinalState_counterexample :
    ¬ (∀ i r, ([⟨Status.InUse, "tagA"⟩, ⟨Status.InUse, "tagB"⟩] : List Register)[i]? = some r →
        r.status = Status.InUse →
        checkFinalState ⟨[⟨Status.InUse, "tagA"⟩, ⟨Status.InUse, "tagB"⟩], []⟩
          = Except.error (i, r.tag)) := by
  intro h
  have h1 := h 1 ⟨Status.InUse, "tagB"⟩ rfl rfl
  have h0 : checkFinalState ⟨[⟨Status.InUse, "tagA"⟩, ⟨Status.InUse, "tagB"⟩], []⟩
      = Except.error (0, "tagA") := rfl
  rw [h0] at h1
  simp only [Except.error.injEq, Prod.mk.injEq] at h1
  exact absurd h1.1 (by decide)

/- ### Claim C8: remove past the end raises -/

theorem removeAux_set_length (pool : List Register) (i : Nat) (r : Register) :
    (pool.set i r).length = pool.length := List.length_set pool i r

theorem removeAux_raises (pool : List Register) :
    ∀ (i size : Nat), 0 < size → pool.length < i + size →
      removeAux pool i size = Except.error "IndexError: list index out of range" := by
  intro i size
  induction size generalizing pool i with
  | zero => intro h; omega
  | succ s ih =>
      intro _ hpast
      by_cases hin : i < pool.length
      · have hget : ∃ r, pool[i]? = some r := ⟨_, List.getElem?_eq_getElem hin⟩
        rcases hget with ⟨r, hr⟩
        simp only [removeAux, hr]
        have hs : 0 < s := by omega
        exact ih _ (i + 1) hs (by simp [List.length_set]; omega)
      · have hr : pool[i]? = none := List.getElem?_eq_none (by omega)
        simp [removeAux, hr]

/-- Claim C8 (code behaviour at the failing input): a `remove` whose range
`[start, start+size)` extends past the current pool size does NOT complete
with only a warning — after logging the warning the marking loop indexes
the list out of range and raises `IndexError`. -/
theorem remove_past_end_raises (p : RegisterPool) (start size : Nat)
    (hsz : 0 < size) (hpast : p.pool.length < start + size) :
    remove p start size = Except.error "IndexError: list index out of range" := by
  unfold remove
  rw [removeAux_raises p.pool start size hsz hpast]
  rfl

/-- Witness for `remove_past_end_raises`: removing `[1, 3)` from a pool of
size 2 raises. -/
theorem remove_past_end_raises_witness :
    remove ⟨[⟨Status.Available, "x"⟩, ⟨Status.Available, "y"⟩], []⟩ 1 2
      = Except.error "IndexError: list index out of range" :=
  remove_past_end_raises ⟨[⟨Status.Available, "x"⟩, ⟨Status.Available, "y"⟩], []⟩ 1 2
    (by decide) (by decide)

/- ### Claim C10: checkIn of a never-checked-out in-bounds start is a no-op -/

/-- Claim C10: for a start index below the pool size with no recorded
checkout size, `checkIn` changes nothing: every slot keeps its status and
tag and the checkout-size map is untouched (only a warning is logged). -/
theorem checkIn_never_checked_out_noop (p : RegisterPool) (start : Nat)
    (hin : start < p.pool.length) (hnone : p.checkOutSize.lookup start = none) :
    checkIn p start = Except.ok p := by
  unfold checkIn
  rw [hnone]
  have hget : ∃ r, p.pool[start]? = some r := by
    exact ⟨_, List.getElem?_eq_getElem hin⟩
  rcases hget with ⟨r, hr⟩
  rw [hr]


/-- Witness for `checkIn_never_checked_out_noop`: checking in start index 0
of a one-slot pool with an empty checkout map returns the pool unchanged. -/
theorem checkIn_never_checked_out_noop_witness :
    checkIn ⟨[⟨Status.InUse, "t"⟩], []⟩ 0 = Except.ok ⟨[⟨Status.InUse, "t"⟩], []⟩ :=
  checkIn_never_checked_out_noop ⟨[⟨Status.InUse, "t"⟩], []⟩ 0 (by decide) (by decide)

end Tensile

namespace Tensile

/- ### Claims C3 and C4: checkOutAligned -/

theorem mapIdxFrom_length (f : Nat → Register → Register) (l : List Register) (n : Nat) :
    (mapIdxFrom f l n).length = l.length := by
  induction l generalizing n with
  | nil => rfl
  | cons r rest ih => simp [mapIdxFrom, ih]

theorem mapIdxFrom_getElem? (f : Nat → Register → Register) (l : List Register) (n i : Nat) :
    (mapIdxFrom f l n)[i]? = Option.map (f (n + i)) l[i]? := by
  induction l generalizing n i with
  | nil => simp [mapIdxFrom]
  | cons r rest ih =>
      cases i with
      | zero => simp [mapIdxFrom]
      | succ i' =>
          simp only [mapIdxFrom, List.getElem?_cons_succ, ih (n + 1) i']
          have harith : n + 1 + i' = n + (i' + 1) := by omega
          rw [harith]

/-- Claim C3: every normally-returning `checkOutAligned` call with positive
size and alignment at least 1 returns a start index divisible by the
alignment — on the low-to-high scan path and on the overflow-growth path
alike. -/
theorem checkOutAligned_alignment (p : RegisterPool) (size alignment : Nat) (tag : String)
    (preventOverflow : Bool) (res : Nat × RegisterPool)
    (hsz : 0 < size) (hal : 1 ≤ alignment)
    (h : checkOutAligned p size alignment tag preventOverflow = Except.ok res) :
    alignment ∣ res.1 := by
  unfold checkOutAligned at h
  rw [if_neg (by omega)] at h
  cases hscan : scanFound p.pool size alignment with
  | some found =>
      rw [hscan] at h
      simp only [Except.ok.injEq] at h
      rw [← h]
      have hok : scanOk p.pool size alignment found = true := by
        unfold scanFound at hscan
        exact List.find?_some hscan
      simp only [scanOk, Bool.and_eq_true, beq_iff_eq] at hok
      exact Nat.dvd_of_mod_eq_zero hok.1.1
  | none =>
      rw [hscan] at h
      cases preventOverflow with
      | true => simp at h
      | false =>
          rw [if_neg Bool.false_ne_true] at h
          simp only [Except.ok.injEq] at h
          rw [← h]
          exact dvd_mul_left alignment _

/-- Witness for `checkOutAligned_alignment`: a pool `[Unavailable,
Available, Available]` with size 2 and alignment 2 takes the overflow path
and returns start index 2, divisible by 2. -/
theorem checkOutAligned_alignment_witness :
    (0 : Nat) < 2 ∧ (1 : Nat) ≤ 2 ∧
    checkOutAligned ⟨[⟨Status.Unavailable, "x"⟩, ⟨Status.Available, "x"⟩,
        ⟨Status.Available, "x"⟩], []⟩ 2 2 "t" false
      = Except.ok (2, ⟨[⟨Status.Unavailable, "x"⟩, ⟨Status.Available, "t"⟩,
          ⟨Status.InUse, "t"⟩, ⟨Status.InUse, "t"⟩], [(2, 2)]⟩) ∧
    2 ∣ 2 :=
  ⟨by decide, by decide, rfl,
   checkOutAligned_alignment ⟨[⟨Status.Unavailable, "x"⟩, ⟨Status.Available, "x"⟩,
        ⟨Status.Available, "x"⟩], []⟩ 2 2 "t" false
     (2, ⟨[⟨Status.Unavailable, "x"⟩, ⟨Status.Available, "t"⟩,
          ⟨Status.InUse, "t"⟩, ⟨Status.InUse, "t"⟩], [(2, 2)]⟩)
     (by decide) (by decide) rfl⟩

/-- Claim C4 (amended): when no aligned, in-bounds, fully-`Available` run
of the requested size exists, `checkOutAligned` with `preventOverflow`
fails fatally before allocating anything; without `preventOverflow` the
pool grows: the returned start is the start of the trailing `Available`
run as seen by the backward scan — which stops before slot 0, so an
`Available` slot 0 is never reused — rounded up to the alignment; the
requested range ends up `InUse` with the new tag, slots appended below the
start are `Available` alignment padding, the pool length becomes the
maximum of the old length and the end of the new range, and the start is
recorded in the checkout-size map. -/
theorem checkOutAligned_overflow_growth (p : RegisterPool) (size alignment : Nat)
    (tag : String) (hsz : 0 < size) (hal : 1 ≤ alignment)
    (hnone : ∀ i, i % alignment = 0 → i + size ≤ p.pool.length →
        allAvailable p.pool i size = false) :
    checkOutAligned p size alignment tag true = Except.error "AssertionError: not preventOverflow"
    ∧ ∃ st : RegisterPool,
        checkOutAligned p size alignment tag false
          = Except.ok (overflowAllocStart p alignment, st)
        ∧ (∀ i r, overflowAllocStart p alignment ≤ i →
            i < overflowAllocStart p alignment + size →
            st.pool[i]? = some r → r.status = Status.InUse ∧ r.tag = tag)
        ∧ (∀ i r, p.pool.length ≤ i → i < overflowAllocStart p alignment →
            st.pool[i]? = some r → r.status = Status.Available)
        ∧ st.pool.length = max p.pool.length (overflowAllocStart p alignment + size)
        ∧ st.checkOutSize.lookup (overflowAllocStart p alignment) = some size := by
  have hfound : scanFound p.pool size alignment = none := by
    unfold scanFound
    rw [List.find?_eq_none]
    intro i _
    intro hok
    simp only [scanOk, Bool.and_eq_true, beq_iff_eq, decide_eq_true_eq] at hok
    have := hnone i hok.1.1 hok.1.2
    rw [hok.2] at this
    exact absurd this (by decide)
  have hsz' : ¬ size = 0 := by omega
  constructor
  · unfold checkOutAligned
    rw [if_neg hsz', hfound]
    rfl
  · refine ⟨⟨(mapIdxFrom
        (fun i r => if overflowAllocStart p alignment ≤ i then ⟨Status.InUse, tag⟩ else r)
        (mapIdxFrom (fun i r => if overflowStart p.pool ≤ i then ⟨r.status, tag⟩ else r)
          p.pool 0) 0)
        ++ (List.range (overflowAllocStart p alignment + size - p.pool.length)).map
            (fun k => if p.pool.length + k < overflowAllocStart p alignment
              then (⟨Status.Available, tag⟩ : Register) else ⟨Status.InUse, tag⟩),
        (overflowAllocStart p alignment, size) :: p.checkOutSize⟩, ?_, ?_, ?_, ?_, ?_⟩
    · unfold checkOutAligned
      rw [if_neg hsz', hfound]
      rfl
    · intro i r h1 h2 hget
      by_cases hi : i < p.pool.length
      · rw [List.getElem?_append_left
            (by rw [mapIdxFrom_length, mapIdxFrom_length]; exact hi)] at hget
        rw [mapIdxFrom_getElem?, mapIdxFrom_getElem?,
            List.getElem?_eq_getElem hi] at hget
        simp only [Option.map_some', Nat.zero_add, Option.some.injEq] at hget
        rw [if_pos h1] at hget
        rw [← hget]
        exact ⟨rfl, rfl⟩
      · rw [List.getElem?_append_right
            (by rw [mapIdxFrom_length, mapIdxFrom_length]; omega)] at hget
        rw [mapIdxFrom_length, mapIdxFrom_length, List.getElem?_map,
            List.getElem?_range (by omega)] at hget
        simp only [Option.map_some', Option.some.injEq] at hget
        rw [if_neg (by omega)] at hget
        rw [← hget]
        exact ⟨rfl, rfl⟩
    · intro i r h1 h2 hget
      rw [List.getElem?_append_right
          (by rw [mapIdxFrom_length, mapIdxFrom_length]; omega)] at hget
      rw [mapIdxFrom_length, mapIdxFrom_length, List.getElem?_map,
          List.getElem?_range (by omega)] at hget
      simp only [Option.map_some', Option.some.injEq] at hget
      rw [if_pos (by omega)] at hget
      rw [← hget]
    · simp only [List.length_append, mapIdxFrom_length, List.length_map, List.length_range]
      omega
    · simp [List.lookup]

/-- Witness for `checkOutAligned_overflow_growth`: a pool with one `InUse`
slot has no available run, and checkout with `preventOverflow` fails
fatally. -/
theorem checkOutAligned_overflow_growth_witness :
    checkOutAligned ⟨[⟨Status.InUse, "x"⟩], []⟩ 1 1 "t" true
      = Except.error "AssertionError: not preventOverflow" :=
  (checkOutAligned_overflow_growth ⟨[⟨Status.InUse, "x"⟩], []⟩ 1 1 "t"
    (by decide) (by decide)
    (by
      intro i h1 h2
      have h2' : i + 1 ≤ 1 := h2
      have hi : i = 0 := by omega
      subst hi
      decide)).1

/-- Counterexample to claim C4 as stated: in a pool consisting of a single
`Available` slot (and no aligned in-bounds run of size 2), the last
contiguous `Available` tail run starts at slot 0, so the claimed append
point — that start rounded up, with alignment 1 — is 0; but the backward
scan of the code never reaches slot 0, and the call returns start index 1,
leaving the `Available` slot 0 outside the allocation. -/
theorem checkOutAligned_overflow_counterexample :
    checkOutAligned ⟨[⟨Status.Available, "x"⟩], []⟩ 2 1 "t" false
      = Except.ok (1, ⟨[⟨Status.Available, "x"⟩, ⟨Status.InUse, "t"⟩, ⟨Status.InUse, "t"⟩],
          [(1, 2)]⟩)
    ∧ roundUpToNearestMultiple
        (([(⟨Status.Available, "x"⟩ : Register)] : List Register).length
          - availableBlockAtEnd [(⟨Status.Available, "x"⟩ : Register)]) 1 = 0
    ∧ (1 : Nat) ≠ 0 :=
  ⟨rfl, rfl, by decide⟩

end Tensile

namespace Tensile

/- ### Claim C2: memory-instruction selection -/

theorem instValid_blockWidth_le (width : Rat) (strides : List Int) (combine : Bool)
    (instruction : MemoryInstruction)
    (h : instValidForWidthStride width strides combine instruction = true) :
    instruction.blockWidth ≤ width := by
  by_cases hw : width < instruction.blockWidth
  · exfalso
    simp only [instValidForWidthStride] at h
    rw [if_pos hw] at h
    split_ifs at h
  · exact le_of_not_lt hw

theorem findMemoryInstruction_lt (width : Rat) (strides : List Int) (combine : Bool) :
    ∀ instructions : List MemoryInstruction,
      findMemoryInstructionForWidthStride width strides combine instructions
          < instructions.length →
      ∃ instruction,
        instructions[findMemoryInstructionForWidthStride width strides combine instructions]?
            = some instruction
        ∧ instValidForWidthStride width strides combine instruction = true := by
  intro l
  induction l with
  | nil => intro h; simp [findMemoryInstructionForWidthStride] at h
  | cons x rest ih =>
      intro h
      by_cases hx : instValidForWidthStride width strides combine x = true
      · refine ⟨x, ?_, hx⟩
        unfold findMemoryInstructionForWidthStride
        rw [if_pos hx]
        exact List.getElem?_cons_zero
      · unfold findMemoryInstructionForWidthStride at h ⊢
        rw [if_neg hx] at h ⊢
        rw [List.getElem?_cons_succ]
        exact ih (by simpa using h)

theorem findMemoryInstruction_none (width : Rat) (strides : List Int) (combine : Bool) :
    ∀ instructions : List MemoryInstruction,
      (∀ instruction ∈ instructions,
        instValidForWidthStride width strides combine instruction = false) →
      findMemoryInstructionForWidthStride width strides combine instructions
        = instructions.length := by
  intro l
  induction l with
  | nil => intro _; rfl
  | cons x rest ih =>
      intro hall
      unfold findMemoryInstructionForWidthStride
      rw [if_neg (by simp [hall x (List.mem_cons_self x rest)])]
      simp [ih (fun instr hi => hall instr (List.mem_cons_of_mem x hi))]

/-- Claim C2: whenever `selectMemoryInstruction` returns a catalog index,
the selected entry has `blockWidth` at most the requested width; and
whenever no catalog entry qualifies under the computed combine flag, it
raises the documented fatal error instead of returning a too-wide
instruction. -/
theorem selectMemoryInstruction_sound (instructions : List MemoryInstruction) (width : Rat)
    (write2 : String) (para2 perp2 : Bool) (strides : List Int) :
    (∀ i, selectMemoryInstruction instructions width write2 para2 perp2 strides = Except.ok i →
      ∃ instruction, instructions[i]? = some instruction ∧ instruction.blockWidth ≤ width)
    ∧ ((∀ instruction ∈ instructions,
          instValidForWidthStride width strides
            ((write2 == "Coalesced" && para2) || (write2 == "Perpendicular" && perp2))
            instruction = false) →
        selectMemoryInstruction instructions width write2 para2 perp2 strides
          = Except.error "Could not find valid memory instruction") := by
  constructor
  · intro i h
    simp only [selectMemoryInstruction] at h
    by_cases hlt : findMemoryInstructionForWidthStride width strides
        ((write2 == "Coalesced" && para2) || (write2 == "Perpendicular" && perp2))
        instructions < instructions.length
    · rw [if_pos hlt] at h
      simp only [Except.ok.injEq] at h
      rw [← h]
      rcases findMemoryInstruction_lt width strides _ instructions hlt with ⟨instr, hget, hvalid⟩
      exact ⟨instr, hget, instValid_blockWidth_le width strides _ instr hvalid⟩
    · rw [if_neg hlt] at h
      simp at h
  · intro hall
    simp only [selectMemoryInstruction]
    rw [findMemoryInstruction_none width strides _ instructions hall]
    rw [if_neg (lt_irrefl instructions.length)]

/-- Witness for `selectMemoryInstruction_sound`: in the local-write-style
catalog `[b128, write2_b64, b64]` with requested width 2 and no combining,
index 2 (`ds_write_b64`, width 2) is selected and is not too wide; in the
one-entry catalog `[b128]` with requested width 1, no entry qualifies and
the fatal error is raised. -/
theorem selectMemoryInstruction_sound_witness :
    (∃ instruction,
      ([⟨"ds_write_b128", 1, 1, 4, (4 : Rat)⟩, ⟨"ds_write2_b64", 1, 2, 2, (2 : Rat)⟩,
        ⟨"ds_write_b64", 1, 1, 2, (2 : Rat)⟩] : List MemoryInstruction)[(2 : Nat)]?
          = some instruction
      ∧ instruction.blockWidth ≤ 2)
    ∧ selectMemoryInstruction [⟨"ds_write_b128", 1, 1, 4, (4 : Rat)⟩] 1 "None" false false []
        = Except.error "Could not find valid memory instruction" :=
  ⟨(selectMemoryInstruction_sound
      [⟨"ds_write_b128", 1, 1, 4, (4 : Rat)⟩, ⟨"ds_write2_b64", 1, 2, 2, (2 : Rat)⟩,
       ⟨"ds_write_b64", 1, 1, 2, (2 : Rat)⟩] 2 "None" false false []).1 2 rfl,
   (selectMemoryInstruction_sound [⟨"ds_write_b128", 1, 1, 4, (4 : Rat)⟩]
      1 "None" false false []).2 (by decide)⟩

/- ### Claim C7: StoreState addressing-mode selection -/

/-- Claim C7: for every input combination, at most one of
`optSingleColVgpr` and `optSharedColVgpr` is enabled; and whenever the
batch is an edge case or atomics are in use, both are disabled, so the
fully-independent per-element addressing mode is selected. -/
theorem storeStateInitOpts_exclusive (bufferStore edge atomic : Bool)
    (packedC0Len packedC1Len storeRemapVectorWidth : Nat) (useInitialStridesCD : Bool) :
    (¬ ((storeStateInitOpts bufferStore edge atomic packedC0Len packedC1Len
          storeRemapVectorWidth useInitialStridesCD).optSingleColVgpr = 1
        ∧ (storeStateInitOpts bufferStore edge atomic packedC0Len packedC1Len
          storeRemapVectorWidth useInitialStridesCD).optSharedColVgpr = 1))
    ∧ ((edge = true ∨ atomic = true) →
        (storeStateInitOpts bufferStore edge atomic packedC0Len packedC1Len
          storeRemapVectorWidth useInitialStridesCD).optSingleColVgpr = 0
        ∧ (storeStateInitOpts bufferStore edge atomic packedC0Len packedC1Len
          storeRemapVectorWidth useInitialStridesCD).optSharedColVgpr = 0) := by
  unfold storeStateInitOpts
  by_cases hu : useInitialStridesCD = true <;>
    by_cases hb : (bufferStore && !edge && !atomic) = true <;>
      by_cases h0 : packedC0Len > 1 <;>
        by_cases h1 : packedC1Len > 1 <;>
          by_cases ha : (!atomic && (packedC1Len == 1)) = true <;>
            by_cases hr : storeRemapVectorWidth ≠ 0 <;>
              simp_all [hu, hb, h0, h1, ha, hr] <;> split_ifs <;> simp_all

/-- Witness for `storeStateInitOpts_exclusive`: an edge batch disables both
column-sharing modes. -/
theorem storeStateInitOpts_exclusive_witness :
    (storeStateInitOpts true true false 1 1 0 false).optSingleColVgpr = 0
    ∧ (storeStateInitOpts true true false 1 1 0 false).optSharedColVgpr = 0 :=
  (storeStateInitOpts_exclusive true true false 1 1 0 false).2 (Or.inl rfl)

/- ### Claim C9: bfloat16 narrowing sequence -/

/-- Claim C9: with a bfloat16 destination and high-precision accumulation
(and not the MultipleBuffer staged-accumulation mode, where no narrowing
is emitted), the narrowing sequence for one vector component contains
exactly one self-compare NaN check, exactly one rounding-increment add and
exactly one conditional select, in that order, all before the final
truncating 16-bit shift (even components) or pack (odd components), which
is the last instruction of the sequence. -/
theorem bf16NarrowOps_shape (globalAccum : String) (hga : globalAccum ≠ "MultipleBuffer")
    (vi : Nat) :
    (bf16NarrowOps globalAccum vi).count "v_cmp_u_f32" = 1
    ∧ (bf16NarrowOps globalAccum vi).count "v_add3_u32" = 1
    ∧ (bf16NarrowOps globalAccum vi).count "v_cndmask_b32" = 1
    ∧ (bf16NarrowOps globalAccum vi).indexOf "v_cmp_u_f32"
        < (bf16NarrowOps globalAccum vi).indexOf "v_add3_u32"
    ∧ (bf16NarrowOps globalAccum vi).indexOf "v_add3_u32"
        < (bf16NarrowOps globalAccum vi).indexOf "v_cndmask_b32"
    ∧ (bf16NarrowOps globalAccum vi).indexOf "v_cndmask_b32"
        < (bf16NarrowOps globalAccum vi).indexOf
            (if vi % 2 = 0 then "v_lshrrev_b32" else "v_and_or_b32")
    ∧ (bf16NarrowOps globalAccum vi).getLast?
        = some (if vi % 2 = 0 then "v_lshrrev_b32" else "v_and_or_b32") := by
  unfold bf16NarrowOps packComponentOps
  rw [if_pos ⟨rfl, hga⟩]
  by_cases h2 : vi % 2 = 0
  · simp only [if_pos h2]
    decide
  · simp only [if_neg h2]
    decide

/-- Witness for `bf16NarrowOps_shape` at a concrete accumulation mode and
component index. -/
theorem bf16NarrowOps_shape_witness :
    (bf16NarrowOps "SingleBuffer" 0).count "v_cmp_u_f32" = 1
    ∧ (bf16NarrowOps "SingleBuffer" 0).getLast? = some "v_lshrrev_b32" :=
  ⟨(bf16NarrowOps_shape "SingleBuffer" (by decide) 0).1,
   by
    have h := (bf16NarrowOps_shape "SingleBuffer" (by decide) 0).2.2.2.2.2.2
    simpa using h⟩

end Tensile

namespace Tensile

/- ### Claim C5: split-K trip-count rebalancing -/

theorem sum_ite_lt (g r : Nat) :
    (∑ i ∈ Finset.range g, if i < r then 1 else 0) = min r g := by
  induction g with
  | zero => simp
  | succ g' ih =>
      rw [Finset.sum_range_succ, ih]
      by_cases h : g' < r
      · rw [if_pos h]
        omega
      · rw [if_neg h]
        omega

theorem calculateLoopNumIterGsu_eq (t g i : Nat) (hg : 0 < g) (ht : t < 2 ^ 32) :
    calculateLoopNumIterGsu t g i = t / g + (if i < t % g then 1 else 0) := by
  simp only [calculateLoopNumIterGsu, scalarStaticDivideAndRemainder, s_add_u32]
  by_cases h : i < t % g
  · rw [if_pos h, if_pos h]
    have hg2 : 2 ≤ g := by
      by_contra hc
      have hone : g = 1 := by omega
      subst hone
      omega
    have hq : t / g ≤ t / 2 := Nat.div_le_div_left hg2 (by omega)
    have ht2 : t / 2 < 2 ^ 31 := by omega
    have hlt : 1 + t / g < 2 ^ 32 := by omega
    rw [Nat.mod_eq_of_lt hlt]
    omega
  · rw [if_neg h, if_neg h]
    omega

/-- Claim C5: the split-K rebalancing rule emitted by
`calculateLoopNumIterGsu` gives each partition the quotient of the total
trip count by the partition count plus one extra iteration exactly when
the partition index is below the remainder; the per-partition counts sum
exactly to the total, differ pairwise by at most 1, and the larger count
goes precisely to the partitions below the remainder. -/
theorem calculateLoopNumIterGsu_rebalance (t g : Nat) (hg : 0 < g) (ht : t < 2 ^ 32) :
    (∑ i ∈ Finset.range g, calculateLoopNumIterGsu t g i) = t
    ∧ (∀ i j, calculateLoopNumIterGsu t g i ≤ calculateLoopNumIterGsu t g j + 1)
    ∧ (∀ i j, i < t % g → t % g ≤ j →
        calculateLoopNumIterGsu t g i = calculateLoopNumIterGsu t g j + 1) := by
  refine ⟨?_, ?_, ?_⟩
  · have hcongr : (∑ i ∈ Finset.range g, calculateLoopNumIterGsu t g i)
        = ∑ i ∈ Finset.range g, (t / g + if i < t % g then 1 else 0) :=
      Finset.sum_congr rfl (fun i _ => calculateLoopNumIterGsu_eq t g i hg ht)
    rw [hcongr, Finset.sum_add_distrib, Finset.sum_const, Finset.card_range, sum_ite_lt,
        smul_eq_mul, min_eq_left (le_of_lt (Nat.mod_lt t hg))]
    exact Nat.div_add_mod t g
  · intro i j
    rw [calculateLoopNumIterGsu_eq t g i hg ht, calculateLoopNumIterGsu_eq t g j hg ht]
    split_ifs <;> omega
  · intro i j hi hj
    rw [calculateLoopNumIterGsu_eq t g i hg ht, calculateLoopNumIterGsu_eq t g j hg ht,
        if_pos hi, if_neg (by omega)]

/-- Witness for `calculateLoopNumIterGsu_rebalance`: 10 iterations over 3
partitions split as 4, 3, 3. -/
theorem calculateLoopNumIterGsu_rebalance_witness :
    (∑ i ∈ Finset.range 3, calculateLoopNumIterGsu 10 3 i) = 10
    ∧ calculateLoopNumIterGsu 10 3 0 = calculateLoopNumIterGsu 10 3 2 + 1 :=
  ⟨(calculateLoopNumIterGsu_rebalance 10 3 (by decide) (by decide)).1,
   (calculateLoopNumIterGsu_rebalance 10 3 (by decide) (by decide)).2.2 0 2
     (by decide) (by decide)⟩

/- ### Claim C6: magic division -/

theorem magic_div_core (d R M n p : Nat) (hn : 0 < n) (hd : d < R)
    (h1 : 2 ^ p ≤ M * n) (h2 : M * n * R ≤ 2 ^ p * R + 2 ^ p) :
    d * M / 2 ^ p = d / n := by
  have hp : 0 < 2 ^ p := pow_pos (by omega) p
  have hdiv : d + 1 ≤ (d / n + 1) * n := by
    have hdm := Nat.div_add_mod d n
    have hlt := Nat.mod_lt d hn
    have hmul : (d / n + 1) * n = n * (d / n) + n := by ring
    omega
  apply Nat.div_eq_of_lt_le
  · calc d / n * 2 ^ p ≤ d / n * (M * n) := Nat.mul_le_mul_left _ h1
      _ = d / n * n * M := by ring
      _ ≤ d * M := Nat.mul_le_mul_right M (Nat.div_mul_le_self d n)
  · have key : d * M * (n * R) < (d / n + 1) * 2 ^ p * (n * R) := by
      calc d * M * (n * R) = M * n * R * d := by ring
        _ ≤ (2 ^ p * R + 2 ^ p) * d := Nat.mul_le_mul_right d h2
        _ = 2 ^ p * R * d + 2 ^ p * d := by ring
        _ < 2 ^ p * R * d + 2 ^ p * R := by
            have hstep : 2 ^ p * d < 2 ^ p * R := mul_lt_mul_of_pos_left hd hp
            omega
        _ = 2 ^ p * R * (d + 1) := by ring
        _ ≤ 2 ^ p * R * ((d / n + 1) * n) := Nat.mul_le_mul_left _ hdiv
        _ = (d / n + 1) * 2 ^ p * (n * R) := by ring
    exact Nat.lt_of_mul_lt_mul_right key

theorem sMagicDiv_exact (d n m shift : Nat) (hv : validMagicTripleAlg1 n m shift)
    (hd : d < 2 ^ 32) : sMagicDiv d m shift = d / n := by
  obtain ⟨hn, hm, hs, hlo, hhi⟩ := hv
  have h1 : 2 ^ shift ≤ m * n := Nat.le_of_mul_le_mul_right hlo (by positivity)
  have hprod : d * m < 2 ^ 64 := by
    calc d * m < 2 ^ 32 * 2 ^ 32 := Nat.mul_lt_mul'' hd hm
      _ = 2 ^ 64 := by norm_num
  simp only [sMagicDiv, s_lshr_b64]
  rw [Nat.mod_eq_of_lt hd, Nat.mod_eq_of_lt hm, Nat.mod_eq_of_lt hprod,
      Nat.mod_eq_of_lt hs, magic_div_core d (2 ^ 32) m n shift hn hd h1 hhi]
  exact Nat.mod_eq_of_lt (lt_of_le_of_lt (Nat.div_le_self d n) hd)

theorem sMagicDivAlg2_exact (d n m shift abit : Nat)
    (hv : validMagicTripleAlg2 n m shift abit) (hd : d < 2 ^ 31) :
    sMagicDivAlg2 d m (abit * 2 ^ 31 + shift) = d / n := by
  obtain ⟨hn, hm, hs, ha, hlo, hhi⟩ := hv
  have hd32 : d < 2 ^ 32 := by omega
  have hword : abit * 2 ^ 31 + shift < 2 ^ 32 := by
    have : abit * 2 ^ 31 ≤ 2 ^ 31 := by
      calc abit * 2 ^ 31 ≤ 1 * 2 ^ 31 := Nat.mul_le_mul_right _ ha
        _ = 2 ^ 31 := by ring
    omega
  have hextract : (abit * 2 ^ 31 + shift) % 2 ^ 32 / 2 ^ (31 % 32) = abit := by
    rw [Nat.mod_eq_of_lt hword]
    have h31 : (31 : Nat) % 32 = 31 := by norm_num
    rw [h31, Nat.mul_comm abit (2 ^ 31), Nat.mul_add_div (by positivity)]
    have hz : shift / 2 ^ 31 = 0 := Nat.div_eq_of_lt (by omega)
    omega
  have hmask : ((abit * 2 ^ 31 + shift) &&& 0x7fffffff) % 2 ^ 32 = shift := by
    have hc : (0x7fffffff : Nat) = 2 ^ 31 - 1 := by norm_num
    rw [hc, Nat.and_pow_two_sub_one_eq_mod, Nat.mul_comm abit (2 ^ 31), Nat.mul_add_mod]
    have h1 : shift % 2 ^ 31 = shift := Nat.mod_eq_of_lt (by omega)
    rw [h1]
    exact Nat.mod_eq_of_lt (by omega)
  have hda : d * abit % 2 ^ 32 = d * abit := by
    have : d * abit ≤ d * 1 := Nat.mul_le_mul_left d ha
    exact Nat.mod_eq_of_lt (by omega)
  have hM : d * abit + d * m / 2 ^ 32 = d * (abit * 2 ^ 32 + m) / 2 ^ 32 := by
    have hexp : d * (abit * 2 ^ 32 + m) = d * m + d * abit * 2 ^ 32 := by ring
    rw [hexp, Nat.add_mul_div_right _ _ (by norm_num : 0 < 2 ^ 32)]
    omega
  have hMlt : abit * 2 ^ 32 + m < 2 ^ 33 := by
    have : abit * 2 ^ 32 ≤ 2 ^ 32 := by
      calc abit * 2 ^ 32 ≤ 1 * 2 ^ 32 := Nat.mul_le_mul_right _ ha
        _ = 2 ^ 32 := by ring
    omega
  have hbound : d * (abit * 2 ^ 32 + m) / 2 ^ 32 < 2 ^ 32 := by
    rw [Nat.div_lt_iff_lt_mul (by positivity)]
    calc d * (abit * 2 ^ 32 + m) < 2 ^ 31 * 2 ^ 33 := Nat.mul_lt_mul'' hd hMlt
      _ = 2 ^ 32 * 2 ^ 32 := by norm_num
  have hcore2 : (abit * 2 ^ 32 + m) * n * 2 ^ 31 ≤ 2 ^ (32 + shift) * 2 ^ 31 + 2 ^ (32 + shift) := by
    calc (abit * 2 ^ 32 + m) * n * 2 ^ 31 ≤ (2 ^ (32 + shift) + 2 ^ shift) * 2 ^ 31 :=
          Nat.mul_le_mul_right _ hhi
      _ = 2 ^ (32 + shift) * 2 ^ 31 + 2 ^ shift * 2 ^ 31 := by rw [Nat.add_mul]
      _ ≤ 2 ^ (32 + shift) * 2 ^ 31 + 2 ^ (32 + shift) := by
          have hle : 2 ^ shift * 2 ^ 31 ≤ 2 ^ (32 + shift) := by
            rw [← pow_add]
            exact Nat.pow_le_pow_right (by omega) (by omega)
          omega
  simp only [sMagicDivAlg2, s_mul_hi_u32, s_mul_i32, s_add_u32, s_lshr_b32, s_and_b32]
  rw [hextract, hmask, Nat.mod_eq_of_lt hd32, Nat.mod_eq_of_lt hm, hda,
      Nat.mod_eq_of_lt hs, hM, Nat.mod_eq_of_lt hbound, Nat.mod_eq_of_lt hbound,
      Nat.div_div_eq_div_mul, ← pow_add,
      magic_div_core d (2 ^ 31) (abit * 2 ^ 32 + m) n (32 + shift) hn hd hlo hcore2]

/-- Claim C6 (amended): for every valid precomputed magic triple the
emitted sequences compute the quotient exactly — the 64-bit-product
variant of `sMagicDiv` for every 32-bit dividend, and the 32-bit corrected
variant of `sMagicDivAlg2` for every dividend below `2^31` (its 32-bit add
of the multiply-high and `dividend * abit` terms wraps for larger
dividends when the abit is set). -/
theorem magicDiv_sequences_exact :
    (∀ d n m shift, validMagicTripleAlg1 n m shift → d < 2 ^ 32 →
      sMagicDiv d m shift = d / n)
    ∧ (∀ d n m shift abit, validMagicTripleAlg2 n m shift abit → d < 2 ^ 31 →
      sMagicDivAlg2 d m (abit * 2 ^ 31 + shift) = d / n) :=
  ⟨fun d n m shift hv hd => sMagicDiv_exact d n m shift hv hd,
   fun d n m shift abit hv hd => sMagicDivAlg2_exact d n m shift abit hv hd⟩

/-- Witness for `magicDiv_sequences_exact`: the divisor-3 triple
{m = 2863311531, shift = 33} on dividend 1000000000 for the 64-bit
variant, and the divisor-7 triple {m = 613566757, shift = 3, abit = 1} on
dividend `2^31 - 1` for the corrected variant. -/
theorem magicDiv_sequences_exact_witness :
    sMagicDiv 1000000000 2863311531 33 = 333333333
    ∧ sMagicDivAlg2 (2 ^ 31 - 1) 613566757 (1 * 2 ^ 31 + 3) = 306783378 :=
  ⟨by
    have h := magicDiv_sequences_exact.1 1000000000 3 2863311531 33 (by decide) (by decide)
    exact h.trans (by norm_num),
   by
    have h := magicDiv_sequences_exact.2 (2 ^ 31 - 1) 7 613566757 3 1 (by decide) (by decide)
    exact h.trans (by norm_num)⟩

/-- Counterexample to claim C6 as stated (every 32-bit dividend): the
triple {m = 613566757, shift = 3, abit = 1} is valid for divisor 7, yet at
dividend `2^32 - 1` the 32-bit add of the emitted corrected sequence wraps
and the sequence returns 76695844 instead of
`(2^32 - 1) / 7 = 613566756`. -/
theorem sMagicDivAlg2_counterexample :
    validMagicTripleAlg2 7 613566757 3 1
    ∧ sMagicDivAlg2 (2 ^ 32 - 1) 613566757 (1 * 2 ^ 31 + 3) = 76695844
    ∧ (2 ^ 32 - 1) / 7 = 613566756
    ∧ sMagicDivAlg2 (2 ^ 32 - 1) 613566757 (1 * 2 ^ 31 + 3) ≠ (2 ^ 32 - 1) / 7 :=
  ⟨by decide, by decide, by decide, by decide⟩

end Tensile
